import Mathlib

/-!
Shallow embedding of the GeoDataPython core (`GeoData/GeoData.py`).

Floating-point scalars are modelled as `NF`: either `nan` (not-a-number)
or a finite rational.  Numpy arrays become lists (`Mat` for 2-D arrays,
row-major), numpy boolean masks become `List Bool`, and raised Python
exceptions become `Except String` / explicit error results.  The external
scattered-data interpolation routine (`scipy.interpolate.griddata`) and
the coordinate-transform formulas live outside this repository, so they
are taken as function parameters, exactly as the code calls them.
-/

namespace GeoDataPy

/-- A floating-point value: not-a-number or a finite rational. -/
inductive NF where
  | nan : NF
  | fin (q : ℚ) : NF
deriving DecidableEq, Repr

/-- `np.isnan` on one element. -/
def isnan : NF → Bool
  | .nan => true
  | .fin _ => false

/-- `np.isfinite` on one element (no infinities in the model). -/
def isfinite : NF → Bool
  | .nan => false
  | .fin _ => true

/-- IEEE `==` on two elements: `nan` compares unequal to everything. -/
def nfEq : NF → NF → Bool
  | .fin a, .fin b => a == b
  | _, _ => false

/-- A 2-D numpy array of floats, row-major. -/
abbrev Mat := List (List NF)

/-- `np.ma.allequal(ma.array(a, mask=isnan a), ma.array(b, mask=isnan b))`
with the default `fill_value=True` on two 1-D arrays of equal shape:
positions where either operand is masked (not-a-number) are filled with
`True`; remaining positions are compared with float equality.  Arrays of
different lengths are not equal in the model. -/
def allequalV (a b : List NF) : Bool :=
  a.length == b.length &&
    (List.zip a b).all (fun p => isnan p.1 || isnan p.2 || nfEq p.1 p.2)

/-- The same masked comparison on 2-D arrays of equal shape. -/
def maAllequal (a b : Mat) : Bool :=
  a.length == b.length && (List.zip a b).all (fun p => allequalV p.1 p.2)

/-- The `GeoData` object after construction: `data` is the insertion-ordered
field dictionary, `times` is the normalized `(numTimes, 2)` interval table. -/
structure GeoData where
  data : List (String × Mat)
  coordnames : String
  dataloc : Mat
  sensorloc : List NF
  times : List (ℚ × ℚ)
  expdesc : String
deriving DecidableEq, Repr

/-- `self.data.keys()` in dictionary (insertion) order. -/
def keysOf (d : List (String × Mat)) : List String := d.map Prod.fst

/-- Dictionary lookup `d[k]` (defaulting to an empty array; the code only
looks up keys it has already checked are present). -/
def lookupD (d : List (String × Mat)) (k : String) : Mat :=
  (d.lookup k).getD []

/-- `set(d1.keys()) == set(d2.keys())`. -/
def keySetEq (d1 d2 : List (String × Mat)) : Bool :=
  (keysOf d1).all (fun k => (keysOf d2).contains k) &&
    (keysOf d2).all (fun k => (keysOf d1).contains k)

/-- `GeoData.__eq__`: field-name sets, each field under the masked
comparison, coordinate names, data locations, sensor location, times. -/
def geoEq (g1 g2 : GeoData) : Bool :=
  keySetEq g1.data g2.data &&
    (keysOf g1.data).all
      (fun k => maAllequal (lookupD g1.data k) (lookupD g2.data k)) &&
    g1.coordnames == g2.coordnames &&
    maAllequal g1.dataloc g2.dataloc &&
    allequalV g1.sensorloc g2.sensorloc &&
    g1.times == g2.times

/-! ## Time normalization: `timerepair` -/

/-- A raw time array as handed to the constructor: either 1-D of single
instants, or 2-D with an explicit column count (so the shape `(0, k)`
is representable). -/
inductive TimeArr where
  | flat (xs : List ℚ) : TimeArr
  | twoD (ncols : ℕ) (rows : List (List ℚ)) : TimeArr
deriving DecidableEq, Repr

/-- `np.diff` on a 1-D array: consecutive differences. -/
def diffs : List ℚ → List ℚ
  | x :: y :: rest => (y - x) :: diffs (y :: rest)
  | _ => []

/-- `np.diff(timear).mean()`: the mean of consecutive differences. -/
def avgDiff (xs : List ℚ) : ℚ := (diffs xs).sum / ((diffs xs).length : ℚ)

/-- The flat-input branch of `timerepair` (after an eventual `ravel`):
size-1 inputs get a synthesized end 60 seconds later; otherwise the end
column is the input rolled left by one with the last entry replaced by
`previous + mean(diff)`.  An empty input raises (`None`): numpy would
fail indexing `timear2[-1]`. -/
def timerepairFlat (xs : List ℚ) : Option TimeArr :=
  if xs.length = 1 then
    some (.twoD 2 [[xs.getD 0 0, xs.getD 0 0 + 60]])
  else if xs.length = 0 then
    none
  else
    let n := xs.length
    let rolled := xs.drop 1 ++ xs.take 1
    let rolled2 := rolled.set (n - 1) (rolled.getD (n - 2) 0 + avgDiff xs)
    some (.twoD 2 (List.zipWith (fun a b => [a, b]) xs rolled2))

/-- `timerepair`: a 2-D array with two columns is returned unchanged;
any other 2-D array is raveled and treated as flat. -/
def timerepair : TimeArr → Option TimeArr
  | .twoD ncols rows =>
      if ncols = 2 then some (.twoD ncols rows) else timerepairFlat rows.flatten
  | .flat xs => timerepairFlat xs

/-! ## Time registration: `timeregister` -/

/-- `timeregister` on two normalized interval tables.  For each row
`(s1, e1)` of the first table: `list1` are the indices of second-table
rows whose start is below `s1`, `list2` those whose end is above `e1`;
if either is empty the row's answer is empty, otherwise
`np.arange(last of list1, first of list2 + 1)`. -/
def timeregister (T1 T2 : List (ℚ × ℚ)) : List (List ℕ) :=
  T1.map (fun l =>
    let list1 := (List.range T2.length).filter (fun i => l.1 > (T2.getD i (0, 0)).1)
    let list2 := (List.range T2.length).filter (fun i => l.2 < (T2.getD i (0, 0)).2)
    if list1.isEmpty || list2.isEmpty then []
    else
      let ind1 := list1.getLastD 0
      let ind2 := list2.headD 0
      List.range' ind1 (ind2 + 1 - ind1))

/-- Refinement reference for `timeregister`, following the (amended) spec
words: `A` is the set of indices of second-table rows whose start is
strictly below `s1`, `B` the set of indices whose end is strictly above
`e1`; if either is empty the answer is empty, otherwise the contiguous
inclusive range from the last index of `A` to the first index of `B`
(empty when the former exceeds the latter). -/
def timeregisterSpec (T1 T2 : List (ℚ × ℚ)) : List (List ℕ) :=
  T1.map (fun l =>
    let A := (List.range T2.length).filter (fun i => (T2.getD i (0, 0)).1 < l.1)
    let B := (List.range T2.length).filter (fun i => l.2 < (T2.getD i (0, 0)).2)
    if A.isEmpty || B.isEmpty then []
    else List.range' (A.getLastD 0) (B.headD 0 + 1 - A.getLastD 0))

/-- What the claim literally states for `timeregister`: `A` is the set of
indices of second-table rows whose start is strictly above `s1`, `B` the
set of indices whose end is strictly below `e1`; empty if either set is
empty, otherwise the inclusive range from the last index of `A` to the
first index of `B`. -/
def timeregisterClaimed (T1 T2 : List (ℚ × ℚ)) : List (List ℕ) :=
  T1.map (fun l =>
    let A := (List.range T2.length).filter (fun i => l.1 < (T2.getD i (0, 0)).1)
    let B := (List.range T2.length).filter (fun i => (T2.getD i (0, 0)).2 < l.2)
    if A.isEmpty || B.isEmpty then []
    else List.range' (A.getLastD 0) (B.headD 0 + 1 - A.getLastD 0))

/-! ## Time augmentation: `add_times` -/

/-- `np.argsort` over the start column, modelled as a stable sort of the
index range by key (stable insertion sort). -/
def argsortStable (keys : List ℚ) : List ℕ :=
  List.insertionSort (fun i j => keys.getD i 0 ≤ keys.getD j 0)
    (List.range keys.length)

/-- The merged, sorted interval table built by `add_times`:
`alltimes[np.argsort(alltimes[:, 0])]`. -/
def sortedByStart (alltimes : List (ℚ × ℚ)) : List (ℚ × ℚ) :=
  (argsortStable (alltimes.map Prod.fst)).map (fun i => alltimes.getD i (0, 0))

/-- `np.hstack` on two 2-D arrays followed by `[:, s_ind]`: concatenate
the rows pairwise, then permute the columns by the sort order. -/
def hstackPermute (sInd : List ℕ) (d1 d2 : Mat) : Mat :=
  (List.zipWith (fun r1 r2 => r1 ++ r2) d1 d2).map
    (fun row => sInd.map (fun i => row.getD i .nan))

/-- The per-field body of the `add_times` loop:
`np.hstack((self.data[ikey], self2.data[ikey]))[:, s_ind]` for every
field, raising when the row counts disagree. -/
def mergeData (sInd : List ℕ) (d1 d2 : List (String × Mat)) :
    Except String (List (String × Mat)) :=
  d1.mapM (fun kv =>
    let dd2 := lookupD d2 kv.1
    if kv.2.length = dd2.length then
      Except.ok (kv.1, hstackPermute sInd kv.2 dd2)
    else
      Except.error ("all the input array dimensions must match exactly"))

/-- `GeoData.add_times`, functionally: the failed `assert`s become error
results carrying the assertion messages; `np.hstack` on arrays with
different row counts raises, modelled the same way.  On success the first
object is returned with the extended time axis and data. -/
def addTimes (g1 g2 : GeoData) : Except String GeoData :=
  if ¬ (keySetEq g1.data g2.data) then .error ("Data must have the same names.")
  else if ¬ (g1.coordnames = g2.coordnames) then .error ("Must be same coordinate same.")
  else if ¬ (maAllequal g1.dataloc g2.dataloc) then .error ("Location points must be the same")
  else if ¬ (allequalV g1.sensorloc g2.sensorloc) then .error ("Sensor Locations must be the same")
  else
    match mergeData (argsortStable ((g1.times ++ g2.times).map Prod.fst))
        g1.data g2.data with
    | .error e => .error e
    | .ok newData =>
        .ok { g1 with times := sortedByStart (g1.times ++ g2.times),
                      data := newData }

/-! ## Spatial interpolation: `interpolate` -/

/-- A warning record: the field name and the start timestamp the message
is built from (`logging.warning('No {} data available at {}', ...)`). -/
abbrev Warn := String × ℚ

/-- The external scattered-data interpolation routine
(`scipy.interpolate.griddata`), taken as a parameter: it receives the
kept source points, the kept source values, the target points, the
method string and the fill value, and may raise. -/
abbrev GridFn := Mat → List NF → Mat → String → NF → Except String (List NF)

/-- ASCII lower-casing of one character, as Python `str.lower` acts on
the coordinate-name strings used here. -/
def lowerChar (c : Char) : Char :=
  if 65 ≤ c.toNat ∧ c.toNat ≤ 90 then Char.ofNat (c.toNat + 32) else c

/-- Python `str.lower` on ASCII coordinate names. -/
def lowerStr (s : String) : String := String.mk (s.data.map lowerChar)

/-- `GeoData.__changecoords__`: dispatch on lower-cased coordinate-name
strings; the two conversion formulas live in the external
`CoordTransforms` module and are passed in as functions. -/
def changecoords (sph2cart cart2sph : Mat → Mat) (g : GeoData)
    (newname : String) : Except String Mat :=
  if lowerStr g.coordnames == "spherical" && lowerStr newname == "cartesian" then
    .ok (sph2cart g.dataloc)
  else if lowerStr g.coordnames == "cartesian" && lowerStr newname == "spherical" then
    .ok (cart2sph g.dataloc)
  else if lowerStr g.coordnames == lowerStr newname then
    .ok g.dataloc
  else
    .error ("Wrong inputs for coordnate names was given.")

/-- `np.isfinite(curparam) & beammask`: elementwise, with a scalar-`True`
beam mask modelled by the empty list (missing entries default to true). -/
def andMask : List NF → List Bool → List Bool
  | [], _ => []
  | v :: vs, [] => isfinite v :: andMask vs []
  | v :: vs, b :: bs => (isfinite v && b) :: andMask vs bs

/-- Numpy boolean-mask indexing `xs[mask]`. -/
def maskFilter {α : Type} : List Bool → List α → List α
  | b :: bs, x :: xs =>
      if b then x :: maskFilter bs xs else maskFilter bs xs
  | _, _ => []

/-- Column `i` of a row-major 2-D array: `m[:, i]`. -/
def colOf (m : Mat) (i : ℕ) : List NF := m.map (fun r => r.getD i .nan)

/-- One time step of the full-field interpolation loop: mask out
not-finite samples (except for the image field named `optical`, which is
used whole), then either call the interpolation routine or — when no
source point survives — record a warning and produce an all-not-a-number
column of the target length. -/
def interpStep (gridd : GridFn) (method : String) (fill : NF)
    (beammask : List Bool) (curcoords newC : Mat) (name : String)
    (fieldCol : List NF) (tim : ℚ × ℚ) :
    List Warn × Except String (List NF) :=
  let pk : List NF × Mat :=
    if name = "optical" then (fieldCol, curcoords)
    else
      let dfmask := andMask fieldCol beammask
      (maskFilter dfmask fieldCol, maskFilter dfmask curcoords)
  if 0 < pk.2.length then ([], gridd pk.2 pk.1 newC method fill)
  else ([(name, tim.1)], .ok (List.replicate newC.length .nan))

/-- The per-field time loop: columns are produced left to right; a raise
aborts the loop, keeping the warnings already emitted. -/
def interpColsGo (gridd : GridFn) (method : String) (fill : NF)
    (beammask : List Bool) (curcoords newC : Mat) (name : String)
    (fieldMat : Mat) : ℕ → List (ℚ × ℚ) →
    List Warn × Except String (List (List NF))
  | _, [] => ([], .ok [])
  | i, t :: ts =>
    let st := interpStep gridd method fill beammask curcoords newC name
      (colOf fieldMat i) t
    match st.2 with
    | .error e => (st.1, .error e)
    | .ok col =>
      let rest := interpColsGo gridd method fill beammask curcoords newC name
        fieldMat (i + 1) ts
      (st.1 ++ rest.1,
        match rest.2 with
        | .error e => .error e
        | .ok cols => .ok (col :: cols))

/-- All columns of one field's new array, starting at time index 0. -/
def interpCols (gridd : GridFn) (method : String) (fill : NF)
    (beammask : List Bool) (curcoords newC : Mat) (name : String)
    (fieldMat : Mat) (times : List (ℚ × ℚ)) :
    List Warn × Except String (List (List NF)) :=
  interpColsGo gridd method fill beammask curcoords newC name fieldMat 0 times

/-- Assemble per-time columns into the `(NNlocs, Nt)` array `New_param`. -/
def stackCols (nnlocs : ℕ) (cols : List (List NF)) : Mat :=
  (List.range nnlocs).map (fun j => cols.map (fun c => c.getD j .nan))

/-- Python `dict` value assignment `d[k] = v` for an existing key:
values change in place, insertion order is kept. -/
def updateAssoc (d : List (String × Mat)) (k : String) (v : Mat) :
    List (String × Mat) :=
  d.map (fun kv => if kv.1 = k then (k, v) else kv)

/-- Outcome of an `interpolate` call.  `err` carries the state of the
object when the exception was raised (Python leaves the partially
rewritten object behind); `updated` is the full destructive path
(the method returns `None` after rewriting the object); `raw` is the
read-only single-field path returning the interpolated array. -/
inductive IResult where
  | err (g : GeoData) (w : List Warn) (msg : String) : IResult
  | updated (g : GeoData) (w : List Warn) : IResult
  | raw (arr : Mat) : IResult
deriving DecidableEq, Repr

/-- The full-field path: walk the field dictionary in order, assigning
`self.data[iparam] = New_param` as soon as each field finishes; only
after every field succeeds are `dataloc` and `coordnames` replaced.
A raise mid-way leaves the fields processed so far already rewritten. -/
def interpFullGo (gridd : GridFn) (method : String) (fill : NF)
    (beammask : List Bool) (curcoords newC newOrig : Mat)
    (newname : String) (times : List (ℚ × ℚ)) :
    List (String × Mat) → GeoData → List Warn → IResult
  | [], g, w => .updated { g with dataloc := newOrig, coordnames := newname } w
  | kv :: rest, g, w =>
    let r := interpCols gridd method fill beammask curcoords newC kv.1 kv.2 times
    match r.2 with
    | .error e => .err g (w ++ r.1) e
    | .ok cols =>
        interpFullGo gridd method fill beammask curcoords newC newOrig newname
          times rest
          { g with data := updateAssoc g.data kv.1 (stackCols newC.length cols) }
          (w ++ r.1)

/-- The single-field path: per time step, drop not-a-number samples (no
beam mask, no empty-sample guard) and interpolate; the object itself is
never touched. -/
def interpSingleGo (gridd : GridFn) (method : String) (fill : NF)
    (curcoords newC : Mat) (fieldMat : Mat) :
    List ℕ → Except String (List (List NF))
  | [] => .ok []
  | i :: is =>
    let col := colOf fieldMat i
    let datakeep := col.map (fun v => !(isnan v))
    let curparam := maskFilter datakeep col
    let coordkeep := maskFilter datakeep curcoords
    match gridd coordkeep curparam newC method fill with
    | .error e => .error e
    | .ok c =>
      match interpSingleGo gridd method fill curcoords newC fieldMat is with
      | .error e => .error e
      | .ok cols => .ok (c :: cols)

/-- `np.all(m[:, k] == v)` with float equality. -/
def colAllEq (m : Mat) (k : ℕ) (v : NF) : Bool :=
  m.all (fun r => nfEq (r.getD k .nan) v)

/-- Keep only the columns of a row whose flag is set. -/
def filterColsBy (keep : List Bool) (m : Mat) : Mat :=
  m.map (fun r => maskFilter keep r)

/-- The degenerate-axis reduction active under `twodinterp`: an axis is
dropped when it is constant (equal to the first entry) across every new
location or across every old location; indexing `new_coords[0]` on an
empty array raises. -/
def twodReduce (curcoords0 newCoords : Mat) (twodinterp : Bool) :
    Except String (Mat × Mat) :=
  if twodinterp then
    match newCoords.head?, curcoords0.head? with
    | some firstel, some firstelold =>
      let keep := (List.range firstel.length).map (fun k =>
        !(colAllEq newCoords k (firstel.getD k .nan) ||
          colAllEq curcoords0 k (firstelold.getD k .nan)))
      .ok (filterColsBy keep curcoords0, filterColsBy keep newCoords)
    | _, _ => .error ("index 0 is out of bounds for axis 0 with size 0")
  else .ok (curcoords0, newCoords)

/-- `GeoData.interpolate`: validation, coordinate conversion, optional
degenerate-axis reduction, then either the full destructive path (when
`ikey` is `None` **or** names no existing field) or the read-only
single-field path. -/
def interpolate (sph2cart cart2sph : Mat → Mat) (gridd : GridFn)
    (g : GeoData) (newCoords : Mat) (newcoordname method : String)
    (fill : NF) (twodinterp : Bool) (ikey : Option String)
    (beammask : List Bool) : IResult :=
  if ¬ (newCoords.all (fun r => r.length = 3)) then
    .err g [] "new_coords must be 2-D with 3 columns"
  else if ¬ (method = "linear" ∨ method = "nearest" ∨ method = "cubic") then
    .err g [] "method needs to be linear, nearest, cubic"
  else
    match changecoords sph2cart cart2sph g newcoordname with
    | .error e => .err g [] e
    | .ok curcoords0 =>
      match twodReduce curcoords0 newCoords twodinterp with
      | .error e => .err g [] e
      | .ok cc =>
        let full := interpFullGo gridd method fill beammask cc.1 cc.2 newCoords
          newcoordname g.times g.data g []
        match ikey with
        | none => full
        | some k =>
          if (keysOf g.data).contains k then
            match interpSingleGo gridd method fill cc.1 cc.2
              (lookupD g.data k) (List.range g.times.length) with
            | .error e => .err g [] e
            | .ok cols => .raw (stackCols cc.2.length cols)
          else full

/-! ## Theorems -/

/-- Every member of `List.range' s n` (step 1) is below `s + n`. -/
lemma mem_range'_lt {s n i : ℕ} (h : i ∈ List.range' s n) : i < s + n := by
  induction n generalizing s with
  | zero => simp at h
  | succ m ih =>
    rw [List.range'_succ] at h
    rcases List.mem_cons.mp h with rfl | h2
    · omega
    · have := ih h2
      omega

/-- `List.range' s n` (step 1) steps by exactly one. -/
lemma range'_chain_succ (s n : ℕ) :
    (List.range' s n).Chain' (fun a b => b = a + 1) := by
  induction n generalizing s with
  | zero => simp
  | succ m ih =>
    rw [List.range'_succ]
    cases m with
    | zero => simp
    | succ m2 =>
      rw [List.range'_succ]
      exact List.Chain'.cons rfl (by rw [← List.range'_succ]; exact ih (s + 1))

/-- The head of a nonempty filtered range is a member of the range. -/
lemma headD_filter_mem {p : ℕ → Bool} {n : ℕ}
    (h : ((List.range n).filter p).isEmpty = false) :
    ((List.range n).filter p).headD 0 ∈ (List.range n).filter p := by
  cases hf : (List.range n).filter p with
  | nil => rw [hf] at h; simp at h
  | cons a l => simp [hf]

/-- The last element of a nonempty filtered range is a member of it. -/
lemma getLastD_filter_mem {p : ℕ → Bool} {n : ℕ}
    (h : ((List.range n).filter p).isEmpty = false) :
    ((List.range n).filter p).getLastD 0 ∈ (List.range n).filter p := by
  cases hf : (List.range n).filter p with
  | nil => rw [hf] at h; simp at h
  | cons a l =>
    rw [List.getLastD_eq_getLast? , List.getLast?_eq_getLast _ (by simp)]
    · simp [List.getLast_mem]

/-- C1 (corrected).  `timeregister` returns one entry per first-table row,
and each entry follows the corrected rule: with `A` the indices of
second-table rows whose start is strictly below `s1` and `B` the indices
of rows whose end is strictly above `e1`, the entry is empty when either
set is empty and otherwise is the inclusive range from the last index of
`A` to the first index of `B`. -/
theorem timeregister_matches_spec (T1 T2 : List (ℚ × ℚ)) :
    (timeregister T1 T2).length = T1.length ∧
      timeregister T1 T2 = timeregisterSpec T1 T2 := by
  constructor
  · simp [timeregister]
  · rfl

/-- C1 counterexample: at `T1 = [(0,10)]`, `T2 = [(1,5)]` the code returns
an empty overlap row, while the formula stated in the claim (`A` = rows
with start above `s1`, `B` = rows with end below `e1`) would return `[0]`. -/
theorem timeregister_claim_false :
    timeregister [(0, 10)] [(1, 5)] = [[]] ∧
      timeregisterClaimed [(0, 10)] [(1, 5)] = [[0]] := by
  constructor <;> rfl

/-- C8.  Every entry produced by `timeregister` contains only valid
indices into the second interval table and is a contiguous, strictly
ascending integer range. -/
theorem timeregister_indices_valid (T1 T2 : List (ℚ × ℚ)) (l : List ℕ)
    (h : l ∈ timeregister T1 T2) :
    (∀ i ∈ l, i < T2.length) ∧ l.Chain' (fun a b => b = a + 1) := by
  rcases List.mem_map.mp h with ⟨pair, _, hbody⟩
  by_cases hc :
      (((List.range T2.length).filter
          (fun i => pair.1 > (T2.getD i (0, 0)).1)).isEmpty ||
        ((List.range T2.length).filter
          (fun i => pair.2 < (T2.getD i (0, 0)).2)).isEmpty) = true
  · rw [if_pos hc] at hbody
    subst hbody
    simp
  · rw [if_neg hc] at hbody
    rw [Bool.or_eq_true, not_or] at hc
    obtain ⟨h1, h2⟩ := hc
    rw [Bool.not_eq_true] at h1 h2
    have hind2 :
        ((List.range T2.length).filter
          (fun i => pair.2 < (T2.getD i (0, 0)).2)).headD 0 < T2.length := by
      have hm := headD_filter_mem h2
      have := List.mem_filter.mp hm
      exact List.mem_range.mp this.1
    have hind1 :
        ((List.range T2.length).filter
          (fun i => pair.1 > (T2.getD i (0, 0)).1)).getLastD 0 < T2.length := by
      have hm := getLastD_filter_mem h1
      have := List.mem_filter.mp hm
      exact List.mem_range.mp this.1
    subst hbody
    constructor
    · intro i hi
      have := mem_range'_lt hi
      omega
    · exact range'_chain_succ _ _

/-- C8 witness: a concrete instantiation with a nonempty overlap row. -/
theorem timeregister_indices_valid_witness :
    ([0] ∈ timeregister [((5 : ℚ), (6 : ℚ))] [(0, 10)]) ∧
      ((∀ i ∈ ([0] : List ℕ), i < ([((0 : ℚ), (10 : ℚ))]).length) ∧
        List.Chain' (fun a b => b = a + 1) ([0] : List ℕ)) :=
  ⟨by decide,
    timeregister_indices_valid [((5 : ℚ), (6 : ℚ))] [(0, 10)] [0] (by decide)⟩

/-- C9.  `timerepair` on an array already in canonical `(N, 2)` form
returns it unchanged. -/
theorem timerepair_idempotent_canonical (rows : List (List ℚ))
    (_hw : ∀ r ∈ rows, r.length = 2) :
    timerepair (.twoD 2 rows) = some (.twoD 2 rows) := by
  simp [timerepair]

/-- C9 witness. -/
theorem timerepair_idempotent_canonical_witness :
    timerepair (.twoD 2 [[0, 5], [7, 9]]) = some (.twoD 2 [[0, 5], [7, 9]]) :=
  timerepair_idempotent_canonical [[0, 5], [7, 9]] (by decide)

/-- Two 1-D arrays of the same length whose entries agree at every
position where both are finite. -/
def vMaskAgree (a b : List NF) : Prop :=
  a.length = b.length ∧
    ∀ i, i < a.length →
      a.getD i .nan = b.getD i .nan ∨
        a.getD i .nan = .nan ∨ b.getD i .nan = .nan

/-- Two 2-D arrays of the same shape whose entries agree at every
position where both are finite. -/
def mMaskAgree (a b : Mat) : Prop :=
  a.length = b.length ∧
    ∀ i, i < a.length → vMaskAgree (a.getD i []) (b.getD i [])

instance (a b : List NF) : Decidable (vMaskAgree a b) := by
  unfold vMaskAgree; infer_instance

instance (a b : Mat) : Decidable (mMaskAgree a b) := by
  unfold mMaskAgree; infer_instance

lemma allequalV_of_vMaskAgree (a b : List NF) (h : vMaskAgree a b) :
    allequalV a b = true := by
  obtain ⟨hlen, hag⟩ := h
  unfold allequalV
  rw [Bool.and_eq_true]
  refine ⟨by simpa using hlen, ?_⟩
  rw [List.all_eq_true]
  intro p hp
  rcases List.mem_iff_getElem.mp hp with ⟨i, hi, hpi⟩
  have hia : i < a.length := by
    have := hi; rw [List.length_zip] at this; omega
  have hib : i < b.length := by
    have := hi; rw [List.length_zip] at this; omega
  have hget : (List.zip a b)[i] = (a[i], b[i]) := List.getElem_zip
  have hda : a.getD i .nan = a[i] := List.getD_eq_getElem a .nan hia
  have hdb : b.getD i .nan = b[i] := List.getD_eq_getElem b .nan hib
  rcases hag i hia with he | ha | hb
  · rw [hda, hdb] at he
    subst hpi
    rw [hget]
    cases hv : b[i] with
    | nan => simp [he, hv, isnan]
    | fin q => simp [he, hv, isnan, nfEq]
  · rw [hda] at ha
    subst hpi
    rw [hget]
    simp [ha, isnan]
  · rw [hdb] at hb
    subst hpi
    rw [hget]
    simp [hb, isnan]

lemma allequalV_refl (a : List NF) : allequalV a a = true :=
  allequalV_of_vMaskAgree a a ⟨rfl, fun _ _ => Or.inl rfl⟩

lemma maAllequal_of_mMaskAgree (a b : Mat) (h : mMaskAgree a b) :
    maAllequal a b = true := by
  obtain ⟨hlen, hag⟩ := h
  unfold maAllequal
  rw [Bool.and_eq_true]
  refine ⟨by simpa using hlen, ?_⟩
  rw [List.all_eq_true]
  intro p hp
  rcases List.mem_iff_getElem.mp hp with ⟨i, hi, hpi⟩
  have hia : i < a.length := by
    have := hi; rw [List.length_zip] at this; omega
  have hib : i < b.length := by
    have := hi; rw [List.length_zip] at this; omega
  have hget : (List.zip a b)[i] = (a[i], b[i]) := List.getElem_zip
  have h2 := hag i hia
  rw [List.getD_eq_getElem a [] hia, List.getD_eq_getElem b [] hib] at h2
  subst hpi
  rw [hget]
  exact allequalV_of_vMaskAgree _ _ h2

lemma maAllequal_refl (a : Mat) : maAllequal a a = true :=
  maAllequal_of_mMaskAgree a a ⟨rfl, fun _ _ => ⟨rfl, fun _ _ => Or.inl rfl⟩⟩

lemma all_contains_self (l : List String) : (l.all (l.contains ·)) = true := by
  rw [List.all_eq_true]
  intro x hx
  exact List.elem_eq_true_of_mem hx

/-- C2 (corrected).  The masked comparison used by `__eq__`
(`np.ma.allequal` with its default `fill_value=True`) treats every
position where **either** operand is not-a-number as equal, so two
datasets that are identical except at positions where at least one side
is not-a-number — in particular finite-versus-not-a-number positions —
compare as equal. -/
theorem geoEq_true_of_either_nan_masked (g1 g2 : GeoData)
    (hkeys : keysOf g1.data = keysOf g2.data)
    (hfields : ∀ k ∈ keysOf g1.data,
      mMaskAgree (lookupD g1.data k) (lookupD g2.data k))
    (hc : g1.coordnames = g2.coordnames)
    (hl : g1.dataloc = g2.dataloc)
    (hs : g1.sensorloc = g2.sensorloc)
    (ht : g1.times = g2.times) :
    geoEq g1 g2 = true := by
  unfold geoEq
  simp only [Bool.and_eq_true]
  refine ⟨⟨⟨⟨⟨?_, ?_⟩, ?_⟩, ?_⟩, ?_⟩, ?_⟩
  · unfold keySetEq
    rw [hkeys, Bool.and_eq_true]
    exact ⟨all_contains_self _, all_contains_self _⟩
  · rw [List.all_eq_true]
    intro k hk
    exact maAllequal_of_mMaskAgree _ _ (hfields k hk)
  · simpa using hc
  · rw [hl]; exact maAllequal_refl _
  · rw [hs]; exact allequalV_refl _
  · simpa using ht

/-- A concrete dataset with a finite value at location index 1. -/
def c2a : GeoData :=
  ⟨[("a", [[.fin 1], [.fin 2]])], "cartesian",
    [[.fin 0, .fin 0, .fin 0], [.fin 1, .fin 0, .fin 0]],
    [.fin 0, .fin 0, .fin 0], [(0, 1)], "d"⟩

/-- The same dataset with not-a-number at location index 1 instead. -/
def c2b : GeoData :=
  ⟨[("a", [[.fin 1], [.nan]])], "cartesian",
    [[.fin 0, .fin 0, .fin 0], [.fin 1, .fin 0, .fin 0]],
    [.fin 0, .fin 0, .fin 0], [(0, 1)], "d"⟩

/-- C2 counterexample: the two datasets differ only at one index, where
one holds `2.0` and the other not-a-number, yet `==` returns `True` —
the masked comparison skips the position because one side is masked. -/
theorem geoEq_nan_vs_finite_equal :
    (lookupD c2a.data "a").getD 1 [] = [.fin 2] ∧
      (lookupD c2b.data "a").getD 1 [] = [.nan] ∧
      geoEq c2a c2b = true := by
  refine ⟨rfl, rfl, ?_⟩
  decide

/-- C2 witness for the corrected statement, at the concrete pair. -/
theorem geoEq_true_of_either_nan_masked_witness : geoEq c2a c2b = true :=
  geoEq_true_of_either_nan_masked c2a c2b (by decide) (by decide)
    (by decide) (by decide) (by decide) (by decide)

lemma rolled_length (xs : List ℚ) (h1 : 1 ≤ xs.length) :
    (xs.drop 1 ++ xs.take 1).length = xs.length := by
  rw [List.length_append, List.length_drop, List.length_take]
  omega

/-- Structure of the flat branch of `timerepair` on inputs of length at
least two: one output row per instant, each row pairing the instant with
the next instant, except the last row, which pairs the last instant with
itself plus the mean consecutive difference. -/
lemma timerepairFlat_rows (xs : List ℚ) (h2 : 2 ≤ xs.length) :
    ∃ rows, timerepairFlat xs = some (.twoD 2 rows) ∧
      rows.length = xs.length ∧
      ∀ i, i < xs.length → rows.getD i [] =
        [xs.getD i 0,
          if i + 1 < xs.length then xs.getD (i + 1) 0
          else xs.getD (xs.length - 1) 0 + avgDiff xs] := by
  have hn1 : ¬ xs.length = 1 := by omega
  have hn0 : ¬ xs.length = 0 := by omega
  have hrl : (xs.drop 1 ++ xs.take 1).length = xs.length :=
    rolled_length xs (by omega)
  refine ⟨List.zipWith (fun a b => [a, b]) xs
      ((xs.drop 1 ++ xs.take 1).set (xs.length - 1)
        ((xs.drop 1 ++ xs.take 1).getD (xs.length - 2) 0 + avgDiff xs)),
    ?_, ?_, ?_⟩
  · unfold timerepairFlat
    rw [if_neg hn1, if_neg hn0]
  · rw [List.length_zipWith, List.length_set, hrl]
    omega
  · intro i hi
    have hiz : i < (List.zipWith (fun a b : ℚ => [a, b]) xs
        ((xs.drop 1 ++ xs.take 1).set (xs.length - 1)
          ((xs.drop 1 ++ xs.take 1).getD (xs.length - 2) 0 + avgDiff xs))).length := by
      rw [List.length_zipWith, List.length_set, hrl]
      omega
    rw [List.getD_eq_getElem _ _ hiz, List.getElem_zipWith]
    rw [List.getD_eq_getElem _ _ hi]
    by_cases hlast : i + 1 < xs.length
    · rw [if_pos hlast]
      have hne : xs.length - 1 ≠ i := by omega
      rw [List.getElem_set_ne hne]
      have hidrop : i < (xs.drop 1).length := by
        rw [List.length_drop]; omega
      rw [List.getElem_append_left hidrop, List.getElem_drop]
      rw [List.getD_eq_getElem _ _ hlast]
      simp only [Nat.add_comm 1 i]
    · rw [if_neg hlast]
      have hieq : i = xs.length - 1 := by omega
      subst hieq
      rw [List.getElem_set_self]
      have hlt : xs.length - 2 < (xs.drop 1).length := by
        rw [List.length_drop]; omega
      have hlt2 : xs.length - 2 < (xs.drop 1 ++ xs.take 1).length := by
        rw [hrl]; omega
      have hx : (xs.drop 1 ++ xs.take 1).getD (xs.length - 2) 0 =
          xs.getD (xs.length - 1) 0 := by
        rw [List.getD_eq_getElem _ _ hlt2, List.getElem_append_left hlt,
          List.getElem_drop,
          List.getD_eq_getElem _ _ (show xs.length - 1 < xs.length by omega)]
        simp only [show 1 + (xs.length - 2) = xs.length - 1 from by omega]
      simp only [hx]

/-- C4.  On a flat input of at least two instants, `timerepair` produces
one row per instant whose start column is the input; `end[i] = start[i+1]`
for every entry but the last, and the last end extrapolates by the mean
consecutive difference; concretely, `[0,10,20,35]` maps to end times
`[10,20,35, 35 + 35/3]`, so the last row is `[35, 140/3]` (≈ `[35, 46.67]`). -/
theorem timerepair_flat_structure :
    (∀ xs : List ℚ, 2 ≤ xs.length →
      ∃ rows, timerepair (.flat xs) = some (.twoD 2 rows) ∧
        rows.length = xs.length ∧
        ∀ i, i < xs.length → rows.getD i [] =
          [xs.getD i 0,
            if i + 1 < xs.length then xs.getD (i + 1) 0
            else xs.getD (xs.length - 1) 0 + avgDiff xs]) ∧
      timerepair (.flat [0, 10, 20, 35]) =
        some (.twoD 2 [[0, 10], [10, 20], [20, 35], [35, 140 / 3]]) := by
  constructor
  · intro xs h2
    exact timerepairFlat_rows xs h2
  · norm_num [timerepair, timerepairFlat, avgDiff, diffs, List.getD]

/-- C4 witness: the general branch discharged at `[0,10,20,35]`. -/
theorem timerepair_flat_structure_witness :
    ∃ rows, timerepair (.flat [(0 : ℚ), 10, 20, 35]) = some (.twoD 2 rows) ∧
      rows.length = ([(0 : ℚ), 10, 20, 35]).length ∧
      ∀ i, i < ([(0 : ℚ), 10, 20, 35]).length → rows.getD i [] =
        [([(0 : ℚ), 10, 20, 35]).getD i 0,
          if i + 1 < ([(0 : ℚ), 10, 20, 35]).length
          then ([(0 : ℚ), 10, 20, 35]).getD (i + 1) 0
          else ([(0 : ℚ), 10, 20, 35]).getD (([(0 : ℚ), 10, 20, 35]).length - 1) 0
            + avgDiff [(0 : ℚ), 10, 20, 35]] :=
  timerepair_flat_structure.1 [(0 : ℚ), 10, 20, 35] (by decide)

/-- Raw time arrays as the constructor accepts them per the spec (shapes
`(N,)`, `(N,1)`, `(N,2)`), with the amended hypothesis: single instants
must be nondecreasing, and explicit interval rows must already satisfy
start ≤ end. -/
def rawOk : TimeArr → Prop
  | .flat xs => xs.Chain' (· ≤ ·)
  | .twoD 1 rows => (∀ r ∈ rows, r.length = 1) ∧ rows.flatten.Chain' (· ≤ ·)
  | .twoD 2 rows => ∀ r ∈ rows, ∃ s e, r = [s, e] ∧ s ≤ e
  | .twoD _ _ => False

lemma diffs_length : ∀ xs : List ℚ, (diffs xs).length = xs.length - 1
  | [] => rfl
  | [_] => rfl
  | x :: y :: rest => by
    rw [show diffs (x :: y :: rest) = (y - x) :: diffs (y :: rest) from rfl]
    rw [List.length_cons, diffs_length (y :: rest)]
    simp

lemma diffs_sum : ∀ (x : ℚ) (xs : List ℚ),
    (diffs (x :: xs)).sum = xs.getLastD x - x
  | x, [] => by simp [diffs]
  | x, y :: rest => by
    rw [show diffs (x :: y :: rest) = (y - x) :: diffs (y :: rest) from rfl]
    rw [List.sum_cons, diffs_sum y rest, List.getLastD_cons]
    ring

lemma chain_le_getLastD : ∀ (x : ℚ) (rest : List ℚ),
    (x :: rest).Chain' (· ≤ ·) → x ≤ rest.getLastD x
  | _, [], _ => le_refl _
  | x, y :: rest, h => by
    rw [List.getLastD_cons]
    have h2 := List.chain'_cons.mp h
    exact le_trans h2.1 (chain_le_getLastD y rest h2.2)

/-- For nondecreasing instants, the mean consecutive difference is
nonnegative (the diff sum telescopes to last minus first). -/
lemma avgDiff_nonneg (xs : List ℚ) (h2 : 2 ≤ xs.length)
    (hc : xs.Chain' (· ≤ ·)) : 0 ≤ avgDiff xs := by
  match xs, hc with
  | x :: rest, hc =>
    unfold avgDiff
    apply div_nonneg
    · rw [diffs_sum x rest]
      have := chain_le_getLastD x rest hc
      linarith
    · positivity

/-- Adjacent entries of a nondecreasing list. -/
lemma chain_adjacent (xs : List ℚ) (hc : xs.Chain' (· ≤ ·)) (i : ℕ)
    (h : i + 1 < xs.length) : xs.getD i 0 ≤ xs.getD (i + 1) 0 := by
  have hi : i < xs.length := by omega
  rw [List.getD_eq_getElem _ _ hi, List.getD_eq_getElem _ _ h]
  have := List.chain'_iff_get.mp hc i (by omega)
  simpa [List.get_eq_getElem] using this

/-- Flat inputs that are nondecreasing normalize to rows with
start ≤ end. -/
lemma timerepairFlat_start_le_end (xs : List ℚ) (hc : xs.Chain' (· ≤ ·))
    (u : TimeArr) (hu : timerepairFlat xs = some u) :
    ∃ rows, u = .twoD 2 rows ∧ ∀ r ∈ rows, ∃ s e, r = [s, e] ∧ s ≤ e := by
  match xs, hc, hu with
  | [], _, hu => simp [timerepairFlat] at hu
  | [x], _, hu =>
    simp [timerepairFlat, List.getD] at hu
    refine ⟨[[x, x + 60]], ?_, ?_⟩
    · rw [← hu]
    · intro r hr
      rw [List.mem_singleton] at hr
      exact ⟨x, x + 60, hr, by linarith⟩
  | x :: y :: rest, hc, hu =>
    have hlen : 2 ≤ (x :: y :: rest).length := by simp
    obtain ⟨rows, he, hlen2, hrows⟩ := timerepairFlat_rows (x :: y :: rest) hlen
    rw [he, Option.some.injEq] at hu
    refine ⟨rows, hu.symm, ?_⟩
    intro r hr
    rcases List.mem_iff_getElem.mp hr with ⟨i, hi, hri⟩
    have hi2 : i < (x :: y :: rest).length := by rw [← hlen2]; exact hi
    have hrow := hrows i hi2
    rw [List.getD_eq_getElem _ _ hi] at hrow
    by_cases hl : i + 1 < (x :: y :: rest).length
    · rw [if_pos hl] at hrow
      refine ⟨_, _, by rw [← hri, hrow], ?_⟩
      exact chain_adjacent _ hc i hl
    · rw [if_neg hl] at hrow
      refine ⟨_, _, by rw [← hri, hrow], ?_⟩
      have h0 : 0 ≤ avgDiff (x :: y :: rest) := avgDiff_nonneg _ hlen hc
      have hieq : i = (x :: y :: rest).length - 1 := by omega
      rw [hieq]
      linarith

/-- C7 (corrected).  After construction, every `timeIntervals` row has
start ≤ end, **provided** the raw input instants were nondecreasing
(shapes `(N,)` and `(N,1)`) or the raw `(N,2)` rows already satisfied it
— `timerepair` passes explicit interval rows through unvalidated and
pairs each instant with the following one, so unsorted raw input
produces rows with start greater than end. -/
theorem timerepair_start_le_end (t u : TimeArr) (hok : rawOk t)
    (hu : timerepair t = some u) :
    ∃ rows, u = .twoD 2 rows ∧ ∀ r ∈ rows, ∃ s e, r = [s, e] ∧ s ≤ e := by
  cases t with
  | flat xs => exact timerepairFlat_start_le_end xs hok u hu
  | twoD ncols rows0 =>
    rcases ncols with _ | _ | _ | m
    · exact (hok : False).elim
    · have hok1 : (∀ r ∈ rows0, r.length = 1) ∧
          rows0.flatten.Chain' (· ≤ ·) := hok
      have heq : timerepair (.twoD 1 rows0) = timerepairFlat rows0.flatten := by
        simp [timerepair]
      rw [heq] at hu
      exact timerepairFlat_start_le_end _ hok1.2 u hu
    · have hok2 : ∀ r ∈ rows0, ∃ s e, r = [s, e] ∧ s ≤ e := hok
      have hu2 : u = .twoD 2 rows0 := by
        simp [timerepair] at hu
        exact hu.symm
      exact ⟨rows0, hu2, hok2⟩
    · exact (hok : False).elim

/-- C7 counterexample: the decreasing instant list `[10, 5]` is accepted
by the constructor, yet normalizes to rows `[[10, 5], [5, 0]]` whose
first row has start `10` greater than end `5`. -/
theorem timerepair_start_le_end_fails_unsorted :
    timerepair (.flat [10, 5]) = some (.twoD 2 [[10, 5], [5, 0]]) ∧
      ¬ ((10 : ℚ) ≤ 5) := by
  constructor
  · norm_num [timerepair, timerepairFlat, avgDiff, diffs, List.getD]
  · norm_num

/-- C7 witness at the sorted flat input `[0, 10]`. -/
theorem timerepair_start_le_end_witness :
    ∃ rows, (TimeArr.twoD 2 [[0, 10], [10, 20]]) = .twoD 2 rows ∧
      ∀ r ∈ rows, ∃ s e, r = [s, e] ∧ s ≤ e :=
  timerepair_start_le_end (.flat [0, 10]) (.twoD 2 [[0, 10], [10, 20]])
    (show List.Chain' (· ≤ ·) [(0 : ℚ), 10] by norm_num [List.chain'_cons])
    (by norm_num [timerepair, timerepairFlat, avgDiff, diffs, List.getD])

lemma map_getD_range {α : Type} (xs : List α) (d : α) :
    (List.range xs.length).map (fun i => xs.getD i d) = xs := by
  refine List.ext_getElem (by simp) ?_
  intro i h1 h2
  rw [List.getElem_map, List.getElem_range]
  exact List.getD_eq_getElem xs d h2

lemma fst_getD (xs : List (ℚ × ℚ)) (i : ℕ) :
    (xs.map Prod.fst).getD i 0 = (xs.getD i (0, 0)).1 := by
  by_cases h : i < xs.length
  · rw [List.getD_eq_getElem _ _ (by simpa using h),
      List.getD_eq_getElem _ _ h, List.getElem_map]
  · rw [List.getD_eq_default _ _ (by simp; omega),
      List.getD_eq_default _ _ (by omega)]

lemma sortedByStart_perm (xs : List (ℚ × ℚ)) : List.Perm (sortedByStart xs) xs := by
  unfold sortedByStart argsortStable
  have hp := (List.perm_insertionSort
    (fun i j => (xs.map Prod.fst).getD i 0 ≤ (xs.map Prod.fst).getD j 0)
    (List.range (xs.map Prod.fst).length)).map (fun i => xs.getD i (0, 0))
  rw [List.length_map] at hp
  rw [map_getD_range xs (0, 0)] at hp
  rw [List.length_map]
  exact hp

lemma sortedByStart_sorted (xs : List (ℚ × ℚ)) :
    (sortedByStart xs).Pairwise (fun a b => a.1 ≤ b.1) := by
  unfold sortedByStart argsortStable
  haveI : IsTotal ℕ
      (fun i j => (xs.map Prod.fst).getD i 0 ≤ (xs.map Prod.fst).getD j 0) :=
    ⟨fun a b => le_total _ _⟩
  haveI : IsTrans ℕ
      (fun i j => (xs.map Prod.fst).getD i 0 ≤ (xs.map Prod.fst).getD j 0) :=
    ⟨fun a b c hab hbc => le_trans hab hbc⟩
  have hs := List.sorted_insertionSort
    (fun i j => (xs.map Prod.fst).getD i 0 ≤ (xs.map Prod.fst).getD j 0)
    (List.range (xs.map Prod.fst).length)
  rw [List.pairwise_map]
  refine hs.imp ?_
  intro i j hij
  rw [fst_getD, fst_getD] at hij
  exact hij

/-- Sorting the merged table by start is deterministic when start keys
are pairwise distinct: any permutation of the input sorts to the same
sequence. -/
lemma sortedByStart_eq_of_perm (xs ys : List (ℚ × ℚ)) (hperm : List.Perm xs ys)
    (hnodup : (xs.map Prod.fst).Nodup) :
    sortedByStart xs = sortedByStart ys := by
  have p1 : List.Perm (sortedByStart xs) xs := sortedByStart_perm xs
  have p2 : List.Perm (sortedByStart ys) ys := sortedByStart_perm ys
  have pall : List.Perm (sortedByStart xs) (sortedByStart ys) :=
    p1.trans (hperm.trans p2.symm)
  have hn1 : ((sortedByStart xs).map Prod.fst).Nodup :=
    ((p1.map Prod.fst).nodup_iff).mpr hnodup
  have hn2 : ((sortedByStart ys).map Prod.fst).Nodup :=
    (((pall.symm).map Prod.fst).nodup_iff).mpr hn1
  have hst1 : (sortedByStart xs).Pairwise (fun a b => a.1 < b.1) := by
    have hne : (sortedByStart xs).Pairwise (fun a b => a.1 ≠ b.1) :=
      (List.pairwise_map).mp hn1
    exact ((sortedByStart_sorted xs).and hne).imp
      (fun h => lt_of_le_of_ne h.1 h.2)
  have hst2 : (sortedByStart ys).Pairwise (fun a b => a.1 < b.1) := by
    have hne : (sortedByStart ys).Pairwise (fun a b => a.1 ≠ b.1) :=
      (List.pairwise_map).mp hn2
    exact ((sortedByStart_sorted ys).and hne).imp
      (fun h => lt_of_le_of_ne h.1 h.2)
  haveI : IsAntisymm (ℚ × ℚ) (fun a b => a.1 < b.1) :=
    ⟨fun a b h1 h2 => absurd (h1.trans h2) (lt_irrefl _)⟩
  exact List.eq_of_perm_of_sorted pall hst1 hst2

/-- On success, the merged object's time axis is the merged table sorted
by start. -/
lemma addTimes_ok_times (g1 g2 g3 : GeoData) (h : addTimes g1 g2 = .ok g3) :
    g3.times = sortedByStart (g1.times ++ g2.times) := by
  unfold addTimes at h
  split_ifs at h
  cases hm : mergeData (argsortStable ((g1.times ++ g2.times).map Prod.fst))
      g1.data g2.data with
  | error e => rw [hm] at h; exact absurd h (by simp)
  | ok nd =>
    rw [hm] at h
    simp only [Except.ok.injEq] at h
    rw [← h]

/-- C5 (corrected).  When both merges succeed **and the merged start
times are pairwise distinct**, `A.add_times(B)` and `B.add_times(A)`
produce the same sorted time axis; `add_times` fails with the
merge-mismatch assertion when the field-name sets differ.  (With tied
start times the two calls can order the tied rows differently.) -/
theorem addTimes_time_axis_comm :
    (∀ A B A2 B2 : GeoData, addTimes A B = .ok A2 → addTimes B A = .ok B2 →
      ((A.times ++ B.times).map Prod.fst).Nodup → A2.times = B2.times) ∧
      (∀ A B : GeoData, keySetEq A.data B.data = false →
        addTimes A B = Except.error ("Data must have the same names.")) := by
  constructor
  · intro A B A2 B2 hA hB hnd
    rw [addTimes_ok_times A B A2 hA, addTimes_ok_times B A B2 hB]
    exact sortedByStart_eq_of_perm _ _ List.perm_append_comm hnd
  · intro A B h
    unfold addTimes
    simp [h]

/-- A minimal dataset with one field, one location, one time interval. -/
def c5A : GeoData :=
  ⟨[("x", [[.fin 1]])], "cartesian", [[.fin 0, .fin 0, .fin 0]],
    [.fin 0, .fin 0, .fin 0], [(0, 5)], "d"⟩

/-- Same shape as `c5A` but its interval shares the start time `0` while
ending at `7`. -/
def c5B : GeoData :=
  ⟨[("x", [[.fin 2]])], "cartesian", [[.fin 0, .fin 0, .fin 0]],
    [.fin 0, .fin 0, .fin 0], [(0, 7)], "d"⟩

/-- Like `c5B` but with a distinct start time. -/
def c5C : GeoData :=
  ⟨[("x", [[.fin 2]])], "cartesian", [[.fin 0, .fin 0, .fin 0]],
    [.fin 0, .fin 0, .fin 0], [(1, 7)], "d"⟩

/-- A dataset whose field-name set differs from `c5A`. -/
def c5K : GeoData :=
  ⟨[("y", [[.fin 2]])], "cartesian", [[.fin 0, .fin 0, .fin 0]],
    [.fin 0, .fin 0, .fin 0], [(1, 7)], "d"⟩

/-- C5 counterexample: `c5A` and `c5B` satisfy every merge precondition,
both merges succeed, yet the two merged-and-sorted time axes differ —
the intervals `(0,5)` and `(0,7)` tie on start time and keep their
concatenation order, which differs between the two calls. -/
theorem addTimes_time_axis_not_commutative :
    (∃ A2, addTimes c5A c5B = .ok A2 ∧ A2.times = [(0, 5), (0, 7)]) ∧
      (∃ B2, addTimes c5B c5A = .ok B2 ∧ B2.times = [(0, 7), (0, 5)]) ∧
      ([((0 : ℚ), (5 : ℚ)), (0, 7)] ≠ [((0 : ℚ), (7 : ℚ)), (0, 5)]) := by
  refine ⟨⟨_, rfl, ?_⟩, ⟨_, rfl, ?_⟩, by decide⟩ <;> decide

/-- C5 witness: with distinct start times both orders agree, and a
field-name mismatch yields the merge-mismatch error. -/
theorem addTimes_time_axis_comm_witness :
    (∃ A2 B2, addTimes c5A c5C = .ok A2 ∧ addTimes c5C c5A = .ok B2 ∧
      A2.times = B2.times) ∧
      addTimes c5A c5K = Except.error ("Data must have the same names.") := by
  constructor
  · refine ⟨_, _, rfl, rfl, ?_⟩
    exact addTimes_time_axis_comm.1 c5A c5C _ _ rfl rfl (by decide)
  · exact addTimes_time_axis_comm.2 c5A c5K (by decide)

lemma maskFilter_of_all_false {α : Type} :
    ∀ (bs : List Bool) (xs : List α),
      (∀ b ∈ bs, b = false) → maskFilter bs xs = []
  | [], _, _ => rfl
  | _ :: _, [], _ => rfl
  | b :: bs, x :: xs, h => by
    have hb : b = false := h b (List.mem_cons_self b bs)
    simp only [maskFilter, hb, Bool.false_eq_true, if_false]
    exact maskFilter_of_all_false bs xs (fun c hc => h c (List.mem_cons_of_mem _ hc))

/-- When the finite-sample mask keeps no location, the step takes the
warning branch: it logs the field name with the start timestamp and
produces a full not-a-number column, without calling the interpolation
routine — for any fill value. -/
lemma interpStep_coordkeep_empty (gridd : GridFn) (method : String)
    (fill : NF) (beammask : List Bool) (curcoords newC : Mat)
    (name : String) (fieldCol : List NF) (tim : ℚ × ℚ)
    (hname : name ≠ "optical")
    (hempty : maskFilter (andMask fieldCol beammask) curcoords = []) :
    interpStep gridd method fill beammask curcoords newC name fieldCol tim =
      ([(name, tim.1)], .ok (List.replicate newC.length .nan)) := by
  unfold interpStep
  rw [if_neg hname]
  simp [hempty]

/-- When at least one finite sample survives the mask, the step calls the
interpolation routine on the kept points, values, and all target
locations, with the chosen method and fill value. -/
lemma interpStep_coordkeep_nonempty (gridd : GridFn) (method : String)
    (fill : NF) (beammask : List Bool) (curcoords newC : Mat)
    (name : String) (fieldCol : List NF) (tim : ℚ × ℚ)
    (hname : name ≠ "optical")
    (hne : maskFilter (andMask fieldCol beammask) curcoords ≠ []) :
    interpStep gridd method fill beammask curcoords newC name fieldCol tim =
      ([], gridd (maskFilter (andMask fieldCol beammask) curcoords)
        (maskFilter (andMask fieldCol beammask) fieldCol) newC method fill) := by
  unfold interpStep
  rw [if_neg hname]
  have hpos : 0 < (maskFilter (andMask fieldCol beammask) curcoords).length :=
    List.length_pos.mpr hne
  simp [hpos]

/-- Projection out of a known-successful interpolation result. -/
def exOk : Except String (List NF) → List NF
  | .ok c => c
  | .error _ => []

lemma interpColsGo_all_ok (gridd : GridFn) (method : String) (fill : NF)
    (beammask : List Bool) (curcoords newC : Mat) (name : String)
    (fieldMat : Mat) :
    ∀ (ts : List (ℚ × ℚ)) (i0 : ℕ),
      (∀ j, j < ts.length → ∃ c,
        (interpStep gridd method fill beammask curcoords newC name
          (colOf fieldMat (i0 + j)) (ts.getD j (0, 0))).2 = .ok c) →
      interpColsGo gridd method fill beammask curcoords newC name fieldMat
          i0 ts =
        (((List.range ts.length).map (fun j =>
            (interpStep gridd method fill beammask curcoords newC name
              (colOf fieldMat (i0 + j)) (ts.getD j (0, 0))).1)).flatten,
          .ok ((List.range ts.length).map (fun j =>
            exOk (interpStep gridd method fill beammask curcoords newC name
              (colOf fieldMat (i0 + j)) (ts.getD j (0, 0))).2)))
  | [], i0, _ => by simp [interpColsGo]
  | t :: ts, i0, h => by
    obtain ⟨c, hc⟩ := h 0 (by simp)
    simp only [List.getD_cons_zero, Nat.add_zero] at hc
    have heqf : ∀ j : ℕ, i0 + 1 + j = i0 + (j + 1) := fun j => by omega
    have ih := interpColsGo_all_ok gridd method fill beammask curcoords newC
      name fieldMat ts (i0 + 1) (fun j hj => by
        obtain ⟨c2, hc2⟩ := h (j + 1) (by simp only [List.length_cons]; omega)
        refine ⟨c2, ?_⟩
        rw [heqf j]
        simpa [List.getD_cons_succ] using hc2)
    simp only [heqf] at ih
    simp only [interpColsGo, hc]
    rw [ih]
    simp only [List.length_cons, List.range_succ_eq_map, List.map_cons,
      List.map_map, List.flatten_cons, List.getD_cons_zero, Nat.add_zero,
      Nat.succ_eq_add_one, List.getD_cons_succ, Function.comp_def, hc, exOk]

/-- C6.  During full-field interpolation of a non-image field, if every
time step that still has a finite sample succeeds in the external
interpolation routine, the whole field succeeds (zero-finite steps never
raise); each zero-finite step contributes a column that is entirely
not-a-number — independent of the fill value — and a warning naming the
field and the step's start timestamp; each step with at least one finite
sample contributes the column computed by the chosen kernel with the
caller's fill value. -/
theorem interpolate_zero_finite_warns (gridd : GridFn) (method : String)
    (fill : NF) (beammask : List Bool) (curcoords newC : Mat)
    (name : String) (fieldMat : Mat) (times : List (ℚ × ℚ))
    (hname : name ≠ "optical")
    (hgrid : ∀ j, j < times.length →
      maskFilter (andMask (colOf fieldMat j) beammask) curcoords ≠ [] →
      ∃ c, gridd (maskFilter (andMask (colOf fieldMat j) beammask) curcoords)
        (maskFilter (andMask (colOf fieldMat j) beammask) (colOf fieldMat j))
        newC method fill = .ok c) :
    ∃ W C, interpCols gridd method fill beammask curcoords newC name
        fieldMat times = (W, .ok C) ∧
      C.length = times.length ∧
      ∀ itime, itime < times.length →
        ((∀ b ∈ andMask (colOf fieldMat itime) beammask, b = false) →
          C.getD itime [] = List.replicate newC.length .nan ∧
            (name, (times.getD itime (0, 0)).1) ∈ W) ∧
        (maskFilter (andMask (colOf fieldMat itime) beammask) curcoords ≠ [] →
          C.getD itime [] = exOk
            (gridd (maskFilter (andMask (colOf fieldMat itime) beammask) curcoords)
              (maskFilter (andMask (colOf fieldMat itime) beammask)
                (colOf fieldMat itime)) newC method fill)) := by
  have hsteps : ∀ j, j < times.length → ∃ c,
      (interpStep gridd method fill beammask curcoords newC name
        (colOf fieldMat (0 + j)) (times.getD j (0, 0))).2 = .ok c := by
    intro j hj
    rw [Nat.zero_add]
    by_cases hemp : maskFilter (andMask (colOf fieldMat j) beammask) curcoords = []
    · exact ⟨_, by rw [interpStep_coordkeep_empty gridd method fill beammask
        curcoords newC name _ _ hname hemp]⟩
    · obtain ⟨c, hcc⟩ := hgrid j hj hemp
      exact ⟨c, by rw [interpStep_coordkeep_nonempty gridd method fill beammask
        curcoords newC name _ _ hname hemp]; exact hcc⟩
  have hloop := interpColsGo_all_ok gridd method fill beammask curcoords newC
    name fieldMat times 0 hsteps
  refine ⟨_, _, hloop, by simp, ?_⟩
  intro itime hit
  have hCget : ((List.range times.length).map (fun j =>
      exOk (interpStep gridd method fill beammask curcoords newC name
        (colOf fieldMat (0 + j)) (times.getD j (0, 0))).2)).getD itime [] =
      exOk (interpStep gridd method fill beammask curcoords newC name
        (colOf fieldMat (0 + itime)) (times.getD itime (0, 0))).2 := by
    rw [List.getD_eq_getElem _ _ (by simpa using hit), List.getElem_map,
      List.getElem_range]
  constructor
  · intro hall
    have hemp : maskFilter (andMask (colOf fieldMat itime) beammask)
        curcoords = [] := maskFilter_of_all_false _ _ hall
    have hstep := interpStep_coordkeep_empty gridd method fill beammask
      curcoords newC name (colOf fieldMat itime) (times.getD itime (0, 0))
      hname hemp
    constructor
    · rw [hCget, Nat.zero_add, hstep]
      rfl
    · refine List.mem_flatten.mpr ⟨[(name, (times.getD itime (0, 0)).1)], ?_, ?_⟩
      · refine List.mem_map.mpr ⟨itime, List.mem_range.mpr hit, ?_⟩
        rw [Nat.zero_add, hstep]
      · exact List.mem_singleton.mpr rfl
  · intro hne
    have hstep := interpStep_coordkeep_nonempty gridd method fill beammask
      curcoords newC name (colOf fieldMat itime) (times.getD itime (0, 0))
      hname hne
    rw [hCget, Nat.zero_add, hstep]

/-- An interpolation stub that always succeeds with the value `7.0`. -/
def c6grid : GridFn := fun _ _ _ _ _ => .ok [.fin 7]

/-- One location. -/
def c6locs : Mat := [[.fin 0, .fin 0, .fin 0]]

/-- One field row over two time steps: not-a-number at step 0, finite at
step 1. -/
def c6field : Mat := [[.nan, .fin 1]]

/-- Two time intervals. -/
def c6times : List (ℚ × ℚ) := [(0, 1), (1, 2)]

/-- C6 witness: a field whose first time step has zero finite samples
and whose second has one. -/
theorem interpolate_zero_finite_warns_witness :
    ∃ W C, interpCols c6grid "nearest" .nan [] c6locs c6locs "f" c6field
        c6times = (W, .ok C) ∧
      C.length = c6times.length ∧
      ∀ itime, itime < c6times.length →
        ((∀ b ∈ andMask (colOf c6field itime) [], b = false) →
          C.getD itime [] = List.replicate c6locs.length .nan ∧
            ("f", (c6times.getD itime (0, 0)).1) ∈ W) ∧
        (maskFilter (andMask (colOf c6field itime) []) c6locs ≠ [] →
          C.getD itime [] = exOk
            (c6grid (maskFilter (andMask (colOf c6field itime) []) c6locs)
              (maskFilter (andMask (colOf c6field itime) [])
                (colOf c6field itime)) c6locs "nearest" NF.nan)) :=
  interpolate_zero_finite_warns c6grid "nearest" .nan [] c6locs c6locs "f"
    c6field c6times (by decide) (fun j hj hne => ⟨[.fin 7], rfl⟩)

/-- On every error exit of the full-field loop, the locations and the
coordinate tag still hold their pre-call values: they are only replaced
after the last field succeeds. -/
lemma interpFullGo_err_state (gridd : GridFn) (method : String) (fill : NF)
    (beammask : List Bool) (curcoords newC newOrig : Mat) (newname : String)
    (times : List (ℚ × ℚ)) :
    ∀ (l : List (String × Mat)) (g : GeoData) (w : List Warn)
      (g2 : GeoData) (w2 : List Warn) (e : String),
      interpFullGo gridd method fill beammask curcoords newC newOrig newname
        times l g w = .err g2 w2 e →
      g2.dataloc = g.dataloc ∧ g2.coordnames = g.coordnames
  | [], g, w, g2, w2, e, h => by simp [interpFullGo] at h
  | kv :: rest, g, w, g2, w2, e, h => by
    rw [interpFullGo] at h
    cases hr : (interpCols gridd method fill beammask curcoords newC kv.1 kv.2
        times).2 with
    | error e2 =>
      simp only [hr] at h
      cases h
      exact ⟨rfl, rfl⟩
    | ok cols =>
      simp only [hr] at h
      have hrec := interpFullGo_err_state gridd method fill beammask curcoords
        newC newOrig newname times rest _ _ g2 w2 e h
      exact hrec

/-- The full-field loop never returns a raw array. -/
lemma interpFullGo_ne_raw (gridd : GridFn) (method : String) (fill : NF)
    (beammask : List Bool) (curcoords newC newOrig : Mat) (newname : String)
    (times : List (ℚ × ℚ)) :
    ∀ (l : List (String × Mat)) (g : GeoData) (w : List Warn) (arr : Mat),
      interpFullGo gridd method fill beammask curcoords newC newOrig newname
        times l g w ≠ .raw arr
  | [], g, w, arr, h => by simp [interpFullGo] at h
  | kv :: rest, g, w, arr, h => by
    rw [interpFullGo] at h
    cases hr : (interpCols gridd method fill beammask curcoords newC kv.1 kv.2
        times).2 with
    | error e2 => simp only [hr] at h; cases h
    | ok cols =>
      simp only [hr] at h
      exact interpFullGo_ne_raw gridd method fill beammask curcoords newC
        newOrig newname times rest _ _ arr h

/-- An interpolation stub that raises exactly on the values of field
`b` below. -/
def c3grid : GridFn := fun _ vals _ _ _ =>
  if vals = [.fin 2] then .error ("boom") else .ok [.fin 9]

/-- A two-field dataset; `c3grid` succeeds on field `a` and raises on
field `b`. -/
def c3g : GeoData :=
  ⟨[("a", [[.fin 1]]), ("b", [[.fin 2]])], "cartesian",
    [[.fin 0, .fin 0, .fin 0]], [.fin 0, .fin 0, .fin 0], [(0, 1)], "d"⟩

/-- The state `c3g` is left in when interpolation raises on field `b`:
field `a` is already on the new grid, field `b` is not. -/
def c3leftover : GeoData :=
  ⟨[("a", [[.fin 9]]), ("b", [[.fin 2]])], "cartesian",
    [[.fin 0, .fin 0, .fin 0]], [.fin 0, .fin 0, .fin 0], [(0, 1)], "d"⟩

/-- C3 counterexample: a failure on the second field leaves the object
changed — the first field has already been rewritten to the new grid —
so the full-field rewrite is not atomic. -/
theorem interpolate_full_path_not_atomic :
    interpolate id id c3grid c3g [[.fin 0, .fin 0, .fin 0]] "cartesian"
        "nearest" .nan false none [] = .err c3leftover [] "boom" ∧
      c3leftover ≠ c3g := by
  constructor
  · rfl
  · decide

/-- C3 (corrected).  The full-field rewrite is not atomic: each field is
swapped in as soon as it is computed, so a failure on a later field
leaves earlier fields on the new grid (concrete conjunct); what failure
does preserve is `dataloc` and `coordnames`, which are only replaced
after every field has succeeded (universal conjunct, covering every
error exit of `interpolate`). -/
theorem interpolate_err_state :
    (∀ (sph cart : Mat → Mat) (gridd : GridFn) (g : GeoData) (newC : Mat)
      (ncn method : String) (fill : NF) (twod : Bool) (ikey : Option String)
      (bm : List Bool) (g2 : GeoData) (w : List Warn) (e : String),
      interpolate sph cart gridd g newC ncn method fill twod ikey bm =
        .err g2 w e →
      g2.dataloc = g.dataloc ∧ g2.coordnames = g.coordnames) ∧
      (∃ g2 w e, interpolate id id c3grid c3g [[.fin 0, .fin 0, .fin 0]]
          "cartesian" "nearest" .nan false none [] = .err g2 w e ∧
        g2.data ≠ c3g.data) := by
  constructor
  · intro sph cart gridd g newC ncn method fill twod ikey bm g2 w e hres
    unfold interpolate at hres
    split at hres
    · cases hres; exact ⟨rfl, rfl⟩
    · split at hres
      · cases hres; exact ⟨rfl, rfl⟩
      · split at hres
        · cases hres; exact ⟨rfl, rfl⟩
        · split at hres
          · cases hres; exact ⟨rfl, rfl⟩
          · split at hres
            · have hx := interpFullGo_err_state _ _ _ _ _ _ _ _ _ _ _ _
                g2 w e hres
              exact hx
            · split at hres
              · split at hres
                · cases hres; exact ⟨rfl, rfl⟩
                · cases hres
              · have hx := interpFullGo_err_state _ _ _ _ _ _ _ _ _ _ _ _
                  g2 w e hres
                exact hx
  · exact ⟨c3leftover, [], "boom", rfl, by decide⟩

/-- C3 witness: the universal conjunct discharged at the concrete
failing run. -/
theorem interpolate_err_state_witness :
    c3leftover.dataloc = c3g.dataloc ∧ c3leftover.coordnames = c3g.coordnames :=
  interpolate_err_state.1 id id c3grid c3g [[.fin 0, .fin 0, .fin 0]]
    "cartesian" "nearest" .nan false none [] c3leftover [] "boom" rfl

/-- On the success exit of the full-field loop, the object's locations
and coordinate tag have been replaced by the new grid and tag. -/
lemma interpFullGo_updated_state (gridd : GridFn) (method : String)
    (fill : NF) (beammask : List Bool) (curcoords newC newOrig : Mat)
    (newname : String) (times : List (ℚ × ℚ)) :
    ∀ (l : List (String × Mat)) (g : GeoData) (w : List Warn)
      (g2 : GeoData) (w2 : List Warn),
      interpFullGo gridd method fill beammask curcoords newC newOrig newname
        times l g w = .updated g2 w2 →
      g2.dataloc = newOrig ∧ g2.coordnames = newname
  | [], g, w, g2, w2, h => by
    simp only [interpFullGo] at h
    cases h
    exact ⟨rfl, rfl⟩
  | kv :: rest, g, w, g2, w2, h => by
    rw [interpFullGo] at h
    cases hr : (interpCols gridd method fill beammask curcoords newC kv.1 kv.2
        times).2 with
    | error e2 => simp only [hr] at h; cases h
    | ok cols =>
      simp only [hr] at h
      exact interpFullGo_updated_state gridd method fill beammask curcoords
        newC newOrig newname times rest _ _ g2 w2 h

/-- C10.  When the single-field selector names no existing field, the
call silently behaves exactly like a call with no selector: it takes the
full destructive path and never returns a raw array.  The read-only
single-field behavior applies only to an existing field name, in which
case the call returns a raw array or raises leaving the object
untouched. -/
theorem interpolate_missing_key_full_path :
    (∀ (sph cart : Mat → Mat) (gridd : GridFn) (g : GeoData) (newC : Mat)
      (ncn method : String) (fill : NF) (twod : Bool) (bm : List Bool)
      (k : String), (keysOf g.data).contains k = false →
      interpolate sph cart gridd g newC ncn method fill twod (some k) bm =
        interpolate sph cart gridd g newC ncn method fill twod none bm ∧
      (∀ arr, interpolate sph cart gridd g newC ncn method fill twod
        (some k) bm ≠ .raw arr) ∧
      ∀ g2 w2, interpolate sph cart gridd g newC ncn method fill twod
        (some k) bm = .updated g2 w2 →
        g2.dataloc = newC ∧ g2.coordnames = ncn) ∧
      (∀ (sph cart : Mat → Mat) (gridd : GridFn) (g : GeoData) (newC : Mat)
        (ncn method : String) (fill : NF) (twod : Bool) (bm : List Bool)
        (k : String), (keysOf g.data).contains k = true →
        (∃ arr, interpolate sph cart gridd g newC ncn method fill twod
          (some k) bm = .raw arr) ∨
        (∃ e, interpolate sph cart gridd g newC ncn method fill twod
          (some k) bm = .err g [] e)) := by
  constructor
  · intro sph cart gridd g newC ncn method fill twod bm k hk
    refine ⟨?_, ?_, ?_⟩
    · unfold interpolate
      split
      · rfl
      · split
        · rfl
        · split
          · rfl
          · split
            · rfl
            · simp only [hk, Bool.false_eq_true, if_false]
    · intro arr h
      unfold interpolate at h
      split at h
      · cases h
      · split at h
        · cases h
        · split at h
          · cases h
          · split at h
            · cases h
            · simp only [hk, Bool.false_eq_true, if_false] at h
              exact interpFullGo_ne_raw _ _ _ _ _ _ _ _ _ _ _ _ arr h
    · intro g2 w2 h
      unfold interpolate at h
      split at h
      · cases h
      · split at h
        · cases h
        · split at h
          · cases h
          · split at h
            · cases h
            · simp only [hk, Bool.false_eq_true, if_false] at h
              have hx := interpFullGo_updated_state _ _ _ _ _ _ _ _ _ _ _ _
                g2 w2 h
              exact hx
  · intro sph cart gridd g newC ncn method fill twod bm k hk
    unfold interpolate
    split
    · exact Or.inr ⟨_, rfl⟩
    · split
      · exact Or.inr ⟨_, rfl⟩
      · split
        · exact Or.inr ⟨_, rfl⟩
        · split
          · exact Or.inr ⟨_, rfl⟩
          · simp only [hk, if_true]
            split
            · exact Or.inr ⟨_, rfl⟩
            · exact Or.inl ⟨_, rfl⟩

/-- A two-field dataset for witnessing the selector dispatch. -/
def c10g : GeoData :=
  ⟨[("a", [[.fin 1]]), ("b", [[.fin 4]])], "cartesian",
    [[.fin 0, .fin 0, .fin 0]], [.fin 0, .fin 0, .fin 0], [(0, 1)], "d"⟩

/-- An interpolation stub that always succeeds. -/
def c10grid : GridFn := fun _ _ _ _ _ => .ok [.fin 3]

/-- C10 witness: selector `zzz` names no field and behaves like no
selector; selector `a` names an existing field and yields a raw array
or an error with the object untouched. -/
theorem interpolate_missing_key_full_path_witness :
    (interpolate id id c10grid c10g [[.fin 0, .fin 0, .fin 0]] "cartesian"
        "nearest" .nan false (some "zzz") [] =
      interpolate id id c10grid c10g [[.fin 0, .fin 0, .fin 0]] "cartesian"
        "nearest" .nan false none [] ∧
      (∀ arr, interpolate id id c10grid c10g [[.fin 0, .fin 0, .fin 0]]
        "cartesian" "nearest" .nan false (some "zzz") [] ≠ .raw arr) ∧
      ∀ g2 w2, interpolate id id c10grid c10g [[.fin 0, .fin 0, .fin 0]]
        "cartesian" "nearest" .nan false (some "zzz") [] = .updated g2 w2 →
        g2.dataloc = [[.fin 0, .fin 0, .fin 0]] ∧
        g2.coordnames = "cartesian") ∧
      ((∃ arr, interpolate id id c10grid c10g [[.fin 0, .fin 0, .fin 0]]
          "cartesian" "nearest" .nan false (some "a") [] = .raw arr) ∨
        (∃ e, interpolate id id c10grid c10g [[.fin 0, .fin 0, .fin 0]]
          "cartesian" "nearest" .nan false (some "a") [] = .err c10g [] e)) :=
  ⟨interpolate_missing_key_full_path.1 id id c10grid c10g
      [[.fin 0, .fin 0, .fin 0]] "cartesian" "nearest" .nan false [] "zzz"
      (by decide),
    interpolate_missing_key_full_path.2 id id c10grid c10g
      [[.fin 0, .fin 0, .fin 0]] "cartesian" "nearest" .nan false [] "a"
      (by decide)⟩

end GeoDataPy
